import Mathlib

/-!
Verification of the product-price resolution subsystem of the `meli`
repository (`src/internal/api/meli_client.go`).

The embedding models the two resolver functions `GetProductBestPrice`
(lines 345-495) and `GetProductBestPriceWithLink` (lines 499-719):

* JSON response bodies are modelled by an inductive `Json` value; the
  behaviour of Go's `encoding/json.Unmarshal` on the target struct types
  is modelled by the `decode*` functions below (object keys are matched
  exactly; a duplicated key is resolved to its last occurrence, as
  `encoding/json` assigns fields in document order; a field of the wrong
  JSON type makes the whole decode report an error, which the source only
  ever inspects through `err == nil`).
* Prices (Go `float64` values decoded from JSON numbers) are modelled as
  rationals; the source only compares prices with `<` and `≤ 0`, for
  which the rational order is faithful (JSON cannot produce NaN or ±Inf).
* Network traffic is modelled by oracles: the first-page fetch outcome,
  a function from page offsets to fetch outcomes for subsequent pages,
  and the confirmation-fetch outcome.  A failed `http.Client.Do`, and a
  failed `io.ReadAll` of a response body on the listings path, both abort
  with the returned error and are modelled as `FetchResult.transportErr`.
  `url.Parse` on the fixed, well-formed endpoint and
  `http.NewRequestWithContext` for method GET cannot fail and are
  modelled as infallible.
-/

set_option maxRecDepth 4000

namespace Meli

/-- Modelled from the spec: the declaration of the Go struct `Item` is not
under `src/` (only its uses in `meli_client.go` and the mapper
`mapItemToSearchItem` are).  Spec §3 gives the Listing data model:
identifier, price (numeric), status (free text, only the literal "active"
is eligible), title, permalink; the JSON keys are the natural lower-case
tags.  These are exactly the fields `meli_client.go` reads. -/
structure Item where
  ID : String
  Title : String
  Price : ℚ
  Permalink : String
  Status : String
deriving DecidableEq, Repr

/-- `ProductPrice` from meli_client.go lines 59-64. -/
structure ProductPrice where
  Price : ℚ
  ItemID : String
  Title : String
  Permalink : String
deriving DecidableEq, Repr

/-- `pagingInfo` from meli_client.go lines 503-507 (identical to the copy at
lines 349-353). -/
structure pagingInfo where
  Total : Int
  Offset : Int
  Limit : Int
deriving DecidableEq, Repr

/-- The zero `pagingInfo{}` value returned for the wrapped and bare shapes. -/
def pagingInfo.zero : pagingInfo := ⟨0, 0, 0⟩

/-- One element of the `Results` array of the paged shape
(meli_client.go lines 511-515): item_id, price, condition. -/
structure PagedResult where
  ItemID : String
  Price : ℚ
  Condition : String
deriving DecidableEq, Repr

/-- JSON values, the input to `processBody`. -/
inductive Json where
  | null : Json
  | bool (b : Bool) : Json
  | num (q : ℚ) : Json
  | str (s : String) : Json
  | arr (elems : List Json) : Json
  | obj (fields : List (String × Json)) : Json

/-- Field lookup in a JSON object: `encoding/json` assigns struct fields in
document order, so a duplicated key resolves to its last occurrence. -/
def lookupField (fields : List (String × Json)) (k : String) : Option Json :=
  (fields.filter (fun p => p.fst = k)).getLast?.map (fun p => p.snd)

/-- Decode a Go `string` struct field: missing or `null` leaves the zero
value, a JSON string is taken verbatim, any other type is a decode error. -/
def decStrField (fields : List (String × Json)) (k : String) : Option String :=
  match lookupField fields k with
  | none => some ""
  | some .null => some ""
  | some (.str s) => some s
  | some _ => none

/-- Decode a Go `float64` struct field. -/
def decNumField (fields : List (String × Json)) (k : String) : Option ℚ :=
  match lookupField fields k with
  | none => some 0
  | some .null => some 0
  | some (.num q) => some q
  | some _ => none

/-- The bounds of Go `int` (int64) on a 64-bit platform. -/
def int64Min : Int := -9223372036854775808

/-- `math.MaxInt64`, the upper bound of Go `int`. -/
def int64Max : Int := 9223372036854775807

/-- Decode a Go `int` struct field: the JSON number must be integral and
fit in int64, else `encoding/json` reports an error ("... overflows
int"). -/
def decIntField (fields : List (String × Json)) (k : String) : Option Int :=
  match lookupField fields k with
  | none => some 0
  | some .null => some 0
  | some (.num q) =>
      if q.den = 1 ∧ int64Min ≤ q.num ∧ q.num ≤ int64Max then some q.num else none
  | some _ => none

/-- `json.Unmarshal` into one `Item` value: only a JSON object (or `null`,
which leaves the zero value) is accepted. -/
def decodeItem : Json → Option Item
  | .obj fs => do
      let id ← decStrField fs "id"
      let title ← decStrField fs "title"
      let price ← decNumField fs "price"
      let permalink ← decStrField fs "permalink"
      let status ← decStrField fs "status"
      some ⟨id, title, price, permalink, status⟩
  | .null => some ⟨"", "", 0, "", ""⟩
  | _ => none

/-- `json.Unmarshal` into `[]Item`. -/
def decodeItemList : Json → Option (List Item)
  | .arr xs => xs.mapM decodeItem
  | .null => some []
  | _ => none

/-- `json.Unmarshal` into `itemsWrapper{Items []Item}` (shape (a),
meli_client.go lines 524-527): any JSON object decodes; a missing or null
`items` key leaves an empty slice. -/
def decodeItemsWrapper : Json → Option (List Item)
  | .obj fs =>
      match lookupField fs "items" with
      | none => some []
      | some j => decodeItemList j
  | .null => some []
  | _ => none

/-- `json.Unmarshal` into `pagingInfo`. -/
def decodePagingInfo : Json → Option pagingInfo
  | .obj fs => do
      let t ← decIntField fs "total"
      let o ← decIntField fs "offset"
      let l ← decIntField fs "limit"
      some ⟨t, o, l⟩
  | .null => some pagingInfo.zero
  | _ => none

/-- Decode one `Results` element of `GetProductBestPriceWithLink`'s
`highlightPage` (meli_client.go lines 511-515): item_id, price, condition. -/
def decodePagedResult : Json → Option PagedResult
  | .obj fs => do
      let i ← decStrField fs "item_id"
      let p ← decNumField fs "price"
      let c ← decStrField fs "condition"
      some ⟨i, p, c⟩
  | .null => some ⟨"", 0, ""⟩
  | _ => none

/-- Decode one `Results` element of `GetProductBestPrice`'s `highlightPage`
(meli_client.go lines 357-363): this struct additionally declares
`CurrencyID string json:"currency_id"`, so a `currency_id` key of a
non-string type is a decode error here although `GetProductBestPriceWithLink`
ignores it. -/
def decodePagedResultStrict : Json → Option PagedResult
  | .obj fs => do
      let i ← decStrField fs "item_id"
      let p ← decNumField fs "price"
      let c ← decStrField fs "condition"
      let _ ← decStrField fs "currency_id"
      some ⟨i, p, c⟩
  | .null => some ⟨"", 0, ""⟩
  | _ => none

/-- `json.Unmarshal` into `[]struct{...}` of paged results, parametrised by
the element decoder. -/
def decodeResultList (dec : Json → Option PagedResult) : Json → Option (List PagedResult)
  | .arr xs => xs.mapM dec
  | .null => some []
  | _ => none

/-- `json.Unmarshal` into `highlightPage{Paging pagingInfo, Results []...}`,
parametrised by the result-element decoder. -/
def decodeHighlightPageWith (dec : Json → Option PagedResult) : Json → Option (pagingInfo × List PagedResult)
  | .obj fs => do
      let pg ← match lookupField fs "paging" with
               | none => some pagingInfo.zero
               | some j => decodePagingInfo j
      let rs ← match lookupField fs "results" with
               | none => some ([] : List PagedResult)
               | some j => decodeResultList dec j
      some (pg, rs)
  | .null => some (pagingInfo.zero, [])
  | _ => none

/-- The `highlightPage` decode of `GetProductBestPriceWithLink`. -/
def decodeHighlightPage : Json → Option (pagingInfo × List PagedResult) :=
  decodeHighlightPageWith decodePagedResult

/-- The `highlightPage` decode of `GetProductBestPrice` (extra `CurrencyID`
field). -/
def decodeHighlightPageStrict : Json → Option (pagingInfo × List PagedResult) :=
  decodeHighlightPageWith decodePagedResultStrict

/-! ### Accumulators and `processBody` -/

/-- `math.MaxFloat64`, the initial value of the running minimum in both
resolvers: the exact integer value of `(2^53 - 1) * 2^971 = 2^1024 - 2^971`,
written as a literal so that it reduces without unary exponentiation. -/
def maxFloat64 : ℚ := 179769313486231570814527423731704356798070567525844996598917476803157260780028538760589558632766878171540458953514382464234321326889464182768467546703537516986049910576551282076245490090389328944075868508455133942304583236903222948165808559332123348274797826204144723168738177180919299881250404026184124858368

/-- The captured state of `GetProductBestPriceWithLink`'s `processBody`
closure: `minPrice float64` and `bestPrice *ProductPrice`
(meli_client.go lines 518-519). -/
structure AccWL where
  minPrice : ℚ
  bestPrice : Option ProductPrice
deriving DecidableEq, Repr

/-- `var bestPrice *ProductPrice; minPrice := math.MaxFloat64`. -/
def initAccWL : AccWL := ⟨maxFloat64, none⟩

/-- The loop body of `GetProductBestPriceWithLink.processBody` for one
`Item` of the wrapped or bare shapes (meli_client.go lines 529-551 and
558-580): skip if price ≤ 0, skip if status ≠ "active", replace the best
candidate when the price is strictly below the running minimum. -/
def foldItemWL (acc : AccWL) (it : Item) : AccWL :=
  if it.Price ≤ 0 then acc
  else if it.Status ≠ "active" then acc
  else if it.Price < acc.minPrice then
    ⟨it.Price, some ⟨it.Price, it.ID, it.Title, it.Permalink⟩⟩
  else acc

/-- The loop body of `GetProductBestPriceWithLink.processBody` for one
paged-shape result (meli_client.go lines 590-612): skip if price ≤ 0 (the
paged elements carry no status), replace on a strictly lower price; title
and permalink of the candidate are left empty. -/
def foldResultWL (acc : AccWL) (r : PagedResult) : AccWL :=
  if r.Price ≤ 0 then acc
  else if r.Price < acc.minPrice then
    ⟨r.Price, some ⟨r.Price, r.ItemID, "", ""⟩⟩
  else acc

/-- `GetProductBestPriceWithLink.processBody` (meli_client.go lines
522-617): try the wrapped shape, then the bare array, then the paged
shape; the first one that decodes without error to a non-empty list is
folded into the accumulator; the paged shape also passes its paging
descriptor through; otherwise the original body is reported in the
"unknown items response format" error. -/
def processBodyWithLink (acc : AccWL) (body : Json) : Except Json (pagingInfo × AccWL) :=
  match decodeItemsWrapper body with
  | some (it :: its) => .ok (pagingInfo.zero, (it :: its).foldl foldItemWL acc)
  | _ =>
    match decodeItemList body with
    | some (it :: its) => .ok (pagingInfo.zero, (it :: its).foldl foldItemWL acc)
    | _ =>
      match decodeHighlightPage body with
      | some (pg, r :: rs) => .ok (pg, (r :: rs).foldl foldResultWL acc)
      | _ => .error body

/-- The captured state of `GetProductBestPrice`'s `processBody` closure:
`min float64` and `found bool` (meli_client.go lines 365-366). -/
structure AccBP where
  min : ℚ
  found : Bool
deriving DecidableEq, Repr

/-- `min := math.MaxFloat64; found := false`. -/
def initAccBP : AccBP := ⟨maxFloat64, false⟩

/-- The loop body of `GetProductBestPrice.processBody` for one `Item`
(meli_client.go lines 376-387 and 394-405). -/
def foldItemBP (acc : AccBP) (it : Item) : AccBP :=
  if it.Price ≤ 0 then acc
  else if it.Status ≠ "active" then acc
  else if it.Price < acc.min then ⟨it.Price, true⟩ else acc

/-- The loop body of `GetProductBestPrice.processBody` for one paged-shape
result (meli_client.go lines 413-424). -/
def foldResultBP (acc : AccBP) (r : PagedResult) : AccBP :=
  if r.Price ≤ 0 then acc
  else if r.Price < acc.min then ⟨r.Price, true⟩ else acc

/-- `GetProductBestPrice.processBody` (meli_client.go lines 369-429); the
paged shape is decoded with the stricter element struct that also declares
`CurrencyID`. -/
def processBodyBestPrice (acc : AccBP) (body : Json) : Except Json (pagingInfo × AccBP) :=
  match decodeItemsWrapper body with
  | some (it :: its) => .ok (pagingInfo.zero, (it :: its).foldl foldItemBP acc)
  | _ =>
    match decodeItemList body with
    | some (it :: its) => .ok (pagingInfo.zero, (it :: its).foldl foldItemBP acc)
    | _ =>
      match decodeHighlightPageStrict body with
      | some (pg, r :: rs) => .ok (pg, (r :: rs).foldl foldResultBP acc)
      | _ => .error body

/-! ### Fetching and pagination -/

/-- Outcome of one HTTP GET as observed by the resolvers: either
`http.Client.Do` (or the subsequent `io.ReadAll`) fails, or a response
with a status code and a body arrives. -/
inductive FetchResult where
  | transportErr : FetchResult
  | response (status : Nat) (body : Json) : FetchResult

/-- Error taxonomy of a resolution (spec §7); each constructor carries
what the corresponding `fmt.Errorf` call formats into the message. -/
inductive MeliError where
  | transport : MeliError
  | unexpectedStatus (status : Nat) (body : Json) : MeliError
  | unknownShape (body : Json) : MeliError
  | noActiveItems (productID : String) : MeliError
  | validationFailed (itemID : String) (status : String) : MeliError

/-- Outcome of a whole Go call: a value, a returned error, or a runtime
panic (nil-pointer dereference). -/
inductive GoResult (α : Type) where
  | ok (a : α) : GoResult α
  | err (e : MeliError) : GoResult α
  | crash : GoResult α

/-- The idealized (unbounded-integer) offset sequence of
`for offset := start; offset < total; offset += limit` (meli_client.go
line 645); only ever entered with `0 < limit`, which the guard also
carries for termination.  Go's `offset += paging.Limit` is int64
arithmetic and wraps on overflow; `wrapIter`/`wrapVisits` below model the
wrapped iteration, and the C3 theorems relate the two: this list is the
program's fetch sequence exactly in the no-overflow regime. -/
def loopOffsets (total limit offset : Int) : List Int :=
  if _h : 0 < limit ∧ offset < total then
    offset :: loopOffsets total limit (offset + limit)
  else []
termination_by (total - offset).toNat
decreasing_by
  omega

/-- The offsets of the subsequent page requests determined by the first
page's paging descriptor (meli_client.go lines 644-645): none unless
`Total > 0 && Limit > 0`, else `Offset+Limit, Offset+2*Limit, ...` while
below `Total`. -/
def subsequentOffsets (p : pagingInfo) : List Int :=
  if 0 < p.Total ∧ 0 < p.Limit then loopOffsets p.Total p.Limit (p.Offset + p.Limit)
  else []

/-- Two's-complement wrap-around of Go int64 arithmetic:
the representative of `x` in `[-2^63, 2^63)`. -/
def wrap64 (x : Int) : Int :=
  (x + 9223372036854775808) % 18446744073709551616 - 9223372036854775808

/-- One `offset += paging.Limit` step of the Go loop, with int64
wrap-around. -/
def wrapStep (limit o : Int) : Int := wrap64 (o + limit)

/-- The offset after `k` wrapped loop steps from `start`. -/
def wrapIter (limit start : Int) : ℕ → Int
  | 0 => start
  | k + 1 => wrapStep limit (wrapIter limit start k)

/-- `o` is an offset the wrapped Go loop actually fetches: it is the k-th
iterate and the loop condition `offset < total` held at every step up to
and including it. -/
def wrapVisits (total limit start o : Int) : Prop :=
  ∃ k : ℕ, o = wrapIter limit start k ∧ ∀ j : ℕ, j ≤ k → wrapIter limit start j < total

/-- The paged fetch loop of `GetProductBestPriceWithLink` (meli_client.go
lines 645-676): fetch each offset in turn, abort on transport error, on a
non-200 status, and on an unknown body shape; the paging descriptor of a
subsequent page is discarded, so the offset list is fixed by the first
page. -/
def foldPagesWL (fetchNext : Int → FetchResult) : List Int → AccWL → Except MeliError AccWL
  | [], acc => .ok acc
  | off :: rest, acc =>
    match fetchNext off with
    | .transportErr => .error .transport
    | .response st body =>
      if st ≠ 200 then .error (.unexpectedStatus st body)
      else
        match processBodyWithLink acc body with
        | .error b => .error (.unknownShape b)
        | .ok (_, acc') => foldPagesWL fetchNext rest acc'

/-- The paged fetch loop of `GetProductBestPrice` (meli_client.go lines
457-488), identical except for the accumulator. -/
def foldPagesBP (fetchNext : Int → FetchResult) : List Int → AccBP → Except MeliError AccBP
  | [], acc => .ok acc
  | off :: rest, acc =>
    match fetchNext off with
    | .transportErr => .error .transport
    | .response st body =>
      if st ≠ 200 then .error (.unexpectedStatus st body)
      else
        match processBodyBestPrice acc body with
        | .error b => .error (.unknownShape b)
        | .ok (_, acc') => foldPagesBP fetchNext rest acc'

/-- `GetProductBestPriceWithLink` up to (excluding) the validation step
(meli_client.go lines 619-684): first-page fetch, shape parse, paged
iteration, then selection of the accumulated best candidate, failing with
"no active items with price for product ..." when there is none. -/
def preValidationWithLink (productID : String) (first : FetchResult)
    (fetchNext : Int → FetchResult) : Except MeliError ProductPrice :=
  match first with
  | .transportErr => .error .transport
  | .response st body =>
    if st ≠ 200 then .error (.unexpectedStatus st body)
    else
      match processBodyWithLink initAccWL body with
      | .error b => .error (.unknownShape b)
      | .ok (paging, acc) =>
        match foldPagesWL fetchNext (subsequentOffsets paging) acc with
        | .error e => .error e
        | .ok acc' =>
          match acc'.bestPrice with
          | none => .error (.noActiveItems productID)
          | some bp => .ok bp

/-- The validation step of `GetProductBestPriceWithLink` (meli_client.go
lines 686-718).  When the winner's `ItemID` is empty no confirmation fetch
happens.  When `http.Client.Do` fails at the transport layer the `else`
branch at line 710 runs `resp.Body.Close()` on the nil response returned
by `Do`, a nil-pointer dereference: the call panics.  A 200 response whose
body does not decode as an `Item`, and any non-200 response, are silently
accepted. -/
def validateBest (bp : ProductPrice) (confirm : FetchResult) : GoResult ProductPrice :=
  if bp.ItemID = "" then .ok bp
  else
    match confirm with
    | .transportErr => .crash
    | .response st cbody =>
      if st = 200 then
        match decodeItem cbody with
        | some it =>
          if it.Status ≠ "active" then .err (.validationFailed bp.ItemID it.Status)
          else .ok bp
        | none => .ok bp
      else .ok bp

/-- `GetProductBestPriceWithLink` (meli_client.go lines 499-719), with the
three network interactions supplied as oracles: the first-page fetch, the
subsequent-page fetches keyed by offset (the limit parameter is the
constant `paging.Limit`), and the confirmation fetch. -/
def GetProductBestPriceWithLink (productID : String) (first : FetchResult)
    (fetchNext : Int → FetchResult) (confirm : FetchResult) : GoResult ProductPrice :=
  match preValidationWithLink productID first fetchNext with
  | .error e => .err e
  | .ok bp => validateBest bp confirm

/-- `GetProductBestPrice` (meli_client.go lines 345-495): same fetching,
shape detection and pagination, no validation step; returns the bare
minimum price, or "no active items with price for product ..." when
nothing was found. -/
def GetProductBestPrice (productID : String) (first : FetchResult)
    (fetchNext : Int → FetchResult) : Except MeliError ℚ :=
  match first with
  | .transportErr => .error .transport
  | .response st body =>
    if st ≠ 200 then .error (.unexpectedStatus st body)
    else
      match processBodyBestPrice initAccBP body with
      | .error b => .error (.unknownShape b)
      | .ok (paging, acc) =>
        match foldPagesBP fetchNext (subsequentOffsets paging) acc with
        | .error e => .error e
        | .ok acc' =>
          if acc'.found then .ok acc'.min else .error (.noActiveItems productID)

/-! ### Specification-side definitions

These are written from the spec's words (§4.1, §8) and are compared with
the source-derived definitions above in the claim theorems. -/

/-- The tagged result of shape detection, as the spec describes it. -/
inductive Shape where
  | wrapped (items : List Item) : Shape
  | bare (items : List Item) : Shape
  | paged (paging : pagingInfo) (results : List PagedResult) : Shape

/-- Keep a decoded listing array only when it is non-empty. -/
def nonEmptyList : Option (List α) → Option (List α)
  | some (x :: xs) => some (x :: xs)
  | _ => none

/-- Shape detection following the spec's words (§4.1): try, in fixed
order, (a) the wrapped object, (b) the bare array, (c) the paged object;
accept the first that both decodes without error and yields a non-empty
listing array. -/
def specDetectShape (body : Json) : Option Shape :=
  ((nonEmptyList (decodeItemsWrapper body)).map .wrapped) <|>
  ((nonEmptyList (decodeItemList body)).map .bare) <|>
  ((decodeHighlightPage body).bind fun pr =>
      (nonEmptyList (some pr.2)).map (.paged pr.1))

/-- A listing entry as carried by an accepted response shape: a full
`Item` from the wrapped or bare shapes, or a paged result. -/
inductive SrcEntry where
  | item (it : Item) : SrcEntry
  | result (r : PagedResult) : SrcEntry

/-- The entries a body contributes to the fold, mirroring the branch
`processBody` takes; empty exactly when the body has no accepted shape. -/
def entriesWL (body : Json) : List SrcEntry :=
  match decodeItemsWrapper body with
  | some (it :: its) => (it :: its).map .item
  | _ =>
    match decodeItemList body with
    | some (it :: its) => (it :: its).map .item
    | _ =>
      match decodeHighlightPage body with
      | some (_, r :: rs) => (r :: rs).map .result
      | _ => []

/-- Eligibility of an entry, as the code filters it: a positive price
always; the literal status "active" additionally for `Item` entries (a
paged result decodes no status at all). -/
def entryEligible : SrcEntry → Prop
  | .item it => 0 < it.Price ∧ it.Status = "active"
  | .result r => 0 < r.Price

/-- The candidate an entry produces when it becomes the running best. -/
def entryCand : SrcEntry → ProductPrice
  | .item it => ⟨it.Price, it.ID, it.Title, it.Permalink⟩
  | .result r => ⟨r.Price, r.ItemID, "", ""⟩

/-- Fold one entry into the accumulator, whichever shape carried it. -/
def foldEntryWL (acc : AccWL) : SrcEntry → AccWL
  | .item it => foldItemWL acc it
  | .result r => foldResultWL acc r

/-- A body that one of the listing-page fetches of this resolution can
deliver with HTTP status 200. -/
def FetchedBody (first : FetchResult) (fetchNext : Int → FetchResult) (b : Json) : Prop :=
  first = .response 200 b ∨ ∃ o, fetchNext o = .response 200 b

/-- Every candidate the accumulator holds satisfies `S` and has a
positive price. -/
def GoodAcc (S : ProductPrice → Prop) (acc : AccWL) : Prop :=
  ∀ c, acc.bestPrice = some c → 0 < c.Price ∧ S c

/-- The price a resolution-up-to-selection yields, if any. -/
def resolvedPrice : Except MeliError ProductPrice → Option ℚ
  | .ok bp => some bp.Price
  | .error _ => none

/-! ### Encoding a listing set into each of the three shapes (spec §8) -/

/-- The natural JSON document for one listing. -/
def encodeItem (it : Item) : Json :=
  .obj [("id", .str it.ID), ("title", .str it.Title), ("price", .num it.Price),
        ("permalink", .str it.Permalink), ("status", .str it.Status)]

/-- Shape (a): an object wrapping the listing array under "items". -/
def encodeWrapped (l : List Item) : Json :=
  .obj [("items", .arr (l.map encodeItem))]

/-- Shape (b): the bare listing array. -/
def encodeBare (l : List Item) : Json :=
  .arr (l.map encodeItem)

/-- One paged-shape results element for a listing.  The element keeps the
listing's id, price and status fields in the JSON text; the decoded
struct only carries item_id, price and condition. -/
def encodePagedElem (it : Item) : Json :=
  .obj [("item_id", .str it.ID), ("price", .num it.Price), ("status", .str it.Status)]

/-- Shape (c): a results array (unpaged, so no paging descriptor). -/
def encodePaged (l : List Item) : Json :=
  .obj [("results", .arr (l.map encodePagedElem))]

/-- The paged result that `encodePagedElem` decodes back to. -/
def resultOfItem (it : Item) : PagedResult := ⟨it.ID, it.Price, ""⟩

/-! ### Helper lemmas -/

theorem foldl_entries_item (l : List Item) (acc : AccWL) :
    (l.map SrcEntry.item).foldl foldEntryWL acc = l.foldl foldItemWL acc := by
  induction l generalizing acc with
  | nil => rfl
  | cons it its ih => simpa [foldEntryWL] using ih (foldItemWL acc it)

theorem foldl_entries_result (l : List PagedResult) (acc : AccWL) :
    (l.map SrcEntry.result).foldl foldEntryWL acc = l.foldl foldResultWL acc := by
  induction l generalizing acc with
  | nil => rfl
  | cons r rs ih => simpa [foldEntryWL] using ih (foldResultWL acc r)

/-- `processBody` of `GetProductBestPriceWithLink` either rejects the body
(when no shape yields entries) or folds exactly the entries of the body. -/
theorem processBodyWithLink_cases (acc : AccWL) (b : Json) :
    (entriesWL b = [] ∧ processBodyWithLink acc b = .error b) ∨
    (entriesWL b ≠ [] ∧
      ∃ pg, processBodyWithLink acc b = .ok (pg, (entriesWL b).foldl foldEntryWL acc)) := by
  unfold processBodyWithLink entriesWL
  rcases hW : decodeItemsWrapper b with - | l
  · rcases hL : decodeItemList b with - | l'
    · rcases hH : decodeHighlightPage b with - | ⟨pg, rs⟩
      · exact Or.inl ⟨rfl, rfl⟩
      · rcases rs with - | ⟨r, rs⟩
        · exact Or.inl ⟨rfl, rfl⟩
        · exact Or.inr ⟨by simp, pg, by simp [foldl_entries_item, foldl_entries_result, foldEntryWL]⟩
    · rcases l' with - | ⟨it, its⟩
      · rcases hH : decodeHighlightPage b with - | ⟨pg, rs⟩
        · exact Or.inl ⟨rfl, rfl⟩
        · rcases rs with - | ⟨r, rs⟩
          · exact Or.inl ⟨rfl, rfl⟩
          · exact Or.inr ⟨by simp, pg, by simp [foldl_entries_item, foldl_entries_result, foldEntryWL]⟩
      · exact Or.inr ⟨by simp, pagingInfo.zero, by simp [foldl_entries_item, foldl_entries_result, foldEntryWL]⟩
  · rcases l with - | ⟨it, its⟩
    · rcases hL : decodeItemList b with - | l'
      · rcases hH : decodeHighlightPage b with - | ⟨pg, rs⟩
        · exact Or.inl ⟨rfl, rfl⟩
        · rcases rs with - | ⟨r, rs⟩
          · exact Or.inl ⟨rfl, rfl⟩
          · exact Or.inr ⟨by simp, pg, by simp [foldl_entries_item, foldl_entries_result, foldEntryWL]⟩
      · rcases l' with - | ⟨it, its⟩
        · rcases hH : decodeHighlightPage b with - | ⟨pg, rs⟩
          · exact Or.inl ⟨rfl, rfl⟩
          · rcases rs with - | ⟨r, rs⟩
            · exact Or.inl ⟨rfl, rfl⟩
            · exact Or.inr ⟨by simp, pg, by simp [foldl_entries_item, foldl_entries_result, foldEntryWL]⟩
        · exact Or.inr ⟨by simp, pagingInfo.zero, by simp [foldl_entries_item, foldl_entries_result, foldEntryWL]⟩
    · exact Or.inr ⟨by simp, pagingInfo.zero, by simp [foldl_entries_item, foldl_entries_result, foldEntryWL]⟩

theorem goodAcc_foldEntry {S : ProductPrice → Prop} {acc : AccWL} (e : SrcEntry)
    (hA : GoodAcc S acc) (hS : entryEligible e → S (entryCand e)) :
    GoodAcc S (foldEntryWL acc e) := by
  rcases e with it | r
  · intro c hc
    simp only [foldEntryWL, foldItemWL] at hc
    split_ifs at hc with h1 h2 h3
    · exact hA c hc
    · exact hA c hc
    · simp only [Option.some.injEq] at hc
      subst hc
      exact ⟨lt_of_not_le h1, hS ⟨lt_of_not_le h1, not_not.mp h2⟩⟩
    · exact hA c hc
  · intro c hc
    simp only [foldEntryWL, foldResultWL] at hc
    split_ifs at hc with h1 h2
    · exact hA c hc
    · simp only [Option.some.injEq] at hc
      subst hc
      exact ⟨lt_of_not_le h1, hS (lt_of_not_le h1)⟩
    · exact hA c hc

theorem goodAcc_foldlEntries {S : ProductPrice → Prop} (es : List SrcEntry) (acc : AccWL)
    (hA : GoodAcc S acc) (hS : ∀ e ∈ es, entryEligible e → S (entryCand e)) :
    GoodAcc S (es.foldl foldEntryWL acc) := by
  induction es generalizing acc with
  | nil => exact hA
  | cons e es ih =>
    exact ih (foldEntryWL acc e) (goodAcc_foldEntry e hA (hS e (by simp)))
      fun e' he' => hS e' (by simp [he'])

theorem goodAcc_processBody {S : ProductPrice → Prop} {acc acc' : AccWL} {b : Json}
    {pg : pagingInfo} (hP : processBodyWithLink acc b = .ok (pg, acc'))
    (hA : GoodAcc S acc) (hS : ∀ e ∈ entriesWL b, entryEligible e → S (entryCand e)) :
    GoodAcc S acc' := by
  rcases processBodyWithLink_cases acc b with ⟨-, he⟩ | ⟨-, pg', he⟩
  · rw [he] at hP
    exact absurd hP (by simp)
  · rw [he] at hP
    have h2 : (entriesWL b).foldl foldEntryWL acc = acc' := by
      injection hP with hP
      injection hP with h1 h2
    exact h2 ▸ goodAcc_foldlEntries _ _ hA hS

theorem goodAcc_foldPages {S : ProductPrice → Prop} {f : Int → FetchResult}
    (offs : List Int) (acc : AccWL) {acc' : AccWL}
    (hF : foldPagesWL f offs acc = .ok acc') (hA : GoodAcc S acc)
    (hS : ∀ o b, f o = .response 200 b → ∀ e ∈ entriesWL b, entryEligible e → S (entryCand e)) :
    GoodAcc S acc' := by
  induction offs generalizing acc with
  | nil =>
    injection hF with hF
    exact hF ▸ hA
  | cons o rest ih =>
    unfold foldPagesWL at hF
    split at hF
    · exact absurd hF (by simp)
    · rename_i st body heq
      split_ifs at hF with hst
      split at hF
      · exact absurd hF (by simp)
      · rename_i pg pr hpb
        have h200 : f o = .response 200 body := by
          rw [heq, not_not.mp hst]
        exact ih pr hF (goodAcc_processBody hpb hA (hS o body h200))

theorem validateBest_ok {bp bp' : ProductPrice} {confirm : FetchResult}
    (h : validateBest bp confirm = .ok bp') : bp' = bp := by
  unfold validateBest at h
  split_ifs at h with h1
  · injection h with h
    exact h.symm
  · rcases confirm with - | ⟨st, cbody⟩
    · exact absurd h (by simp)
    · by_cases h2 : st = 200
      · subst h2
        simp only [reduceIte] at h
        split at h
        · split_ifs at h with h3
          injection h with h
          exact h.symm
        · injection h with h
          exact h.symm
      · simp only [if_neg h2] at h
        injection h with h
        exact h.symm

theorem foldItemWL_minPrice_le (acc : AccWL) (it : Item) :
    (foldItemWL acc it).minPrice ≤ acc.minPrice := by
  unfold foldItemWL
  split_ifs with h1 h2 h3
  · exact le_refl _
  · exact le_refl _
  · exact le_of_lt h3
  · exact le_refl _

theorem foldResultWL_minPrice_le (acc : AccWL) (r : PagedResult) :
    (foldResultWL acc r).minPrice ≤ acc.minPrice := by
  unfold foldResultWL
  split_ifs with h1 h2
  · exact le_refl _
  · exact le_of_lt h2
  · exact le_refl _

theorem foldlEntries_minPrice_le (es : List SrcEntry) (acc : AccWL) :
    (es.foldl foldEntryWL acc).minPrice ≤ acc.minPrice := by
  induction es generalizing acc with
  | nil => exact le_refl _
  | cons e es ih =>
    refine le_trans (ih (foldEntryWL acc e)) ?_
    rcases e with it | r
    · exact foldItemWL_minPrice_le acc it
    · exact foldResultWL_minPrice_le acc r

theorem processBodyWithLink_minPrice_le {acc acc' : AccWL} {b : Json} {pg : pagingInfo}
    (hP : processBodyWithLink acc b = .ok (pg, acc')) : acc'.minPrice ≤ acc.minPrice := by
  rcases processBodyWithLink_cases acc b with ⟨-, he⟩ | ⟨-, pg', he⟩
  · rw [he] at hP
    exact absurd hP (by simp)
  · rw [he] at hP
    have h2 : (entriesWL b).foldl foldEntryWL acc = acc' := by
      injection hP with hP
      injection hP with h1 h2
    exact h2 ▸ foldlEntries_minPrice_le _ _

theorem foldPagesWL_minPrice_le {f : Int → FetchResult} (offs : List Int) (acc : AccWL)
    {acc' : AccWL} (hF : foldPagesWL f offs acc = .ok acc') :
    acc'.minPrice ≤ acc.minPrice := by
  induction offs generalizing acc with
  | nil =>
    injection hF with hF
    exact hF ▸ le_refl _
  | cons o rest ih =>
    unfold foldPagesWL at hF
    split at hF
    · exact absurd hF (by simp)
    · rename_i st body heq
      split_ifs at hF with hst
      split at hF
      · exact absurd hF (by simp)
      · rename_i pg pr hpb
        exact le_trans (ih pr hF) (processBodyWithLink_minPrice_le hpb)

/-- A page fetch outcome that lets the paged loop continue: status 200 and
a body with an accepted, non-empty shape. -/
def pageGood (r : FetchResult) : Prop :=
  ∃ b, r = .response 200 b ∧ entriesWL b ≠ []

theorem foldPagesWL_bad {f : Int → FetchResult} (offs : List Int) (acc : AccWL)
    (h : ∃ o ∈ offs, ¬ pageGood (f o)) :
    ∃ e, foldPagesWL f offs acc = .error e := by
  induction offs generalizing acc with
  | nil => simp at h
  | cons o rest ih =>
    rcases h with ⟨o', ho', hbad⟩
    unfold foldPagesWL
    rcases List.mem_cons.mp ho' with rfl | ho'
    · rcases hfo : f o' with - | ⟨st, body⟩
      · exact ⟨.transport, rfl⟩
      · by_cases hst : st = 200
        · subst hst
          rcases processBodyWithLink_cases acc body with ⟨hemp, he⟩ | ⟨hne, pg', he⟩
          · exact ⟨.unknownShape body, by simp [he]⟩
          · exact absurd ⟨body, hfo, hne⟩ hbad
        · exact ⟨.unexpectedStatus st body, by simp [hst]⟩
    · rcases hfo : f o with - | ⟨st, body⟩
      · exact ⟨.transport, rfl⟩
      · by_cases hst : st = 200
        · subst hst
          rcases hpb : processBodyWithLink acc body with b' | ⟨pg', acc''⟩
          · exact ⟨.unknownShape b', by simp [hpb]⟩
          · obtain ⟨e, hee⟩ := ih acc'' ⟨o', ho', hbad⟩
            exact ⟨e, by simp [hpb, hee]⟩
        · exact ⟨.unexpectedStatus st body, by simp [hst]⟩

theorem mem_loopOffsets {t l : Int} (hl : 0 < l) :
    ∀ (o x : Int), x ∈ loopOffsets t l o ↔ ∃ k : ℕ, x = o + k * l ∧ x < t := by
  have H : ∀ (n : ℕ) (o : Int), (t - o).toNat ≤ n →
      ∀ x, x ∈ loopOffsets t l o ↔ ∃ k : ℕ, x = o + k * l ∧ x < t := by
    intro n
    induction n with
    | zero =>
      intro o hn x
      have hto : t ≤ o := by omega
      rw [loopOffsets.eq_def, dif_neg (by omega)]
      simp only [List.not_mem_nil, false_iff, not_exists, not_and]
      rintro k rfl
      have hkl : (0:ℤ) ≤ (k:ℤ) * l := mul_nonneg (Int.natCast_nonneg k) hl.le
      intro hx
      linarith
    | succ n ih =>
      intro o hn x
      rw [loopOffsets.eq_def]
      split_ifs with h
      · rw [List.mem_cons, ih (o + l) (by omega) x]
        constructor
        · rintro (rfl | ⟨k, rfl, hk⟩)
          · exact ⟨0, by simp, h.2⟩
          · exact ⟨k + 1, by push_cast; ring, hk⟩
        · rintro ⟨k, rfl, hk⟩
          rcases k with - | k
          · exact Or.inl (by simp)
          · exact Or.inr ⟨k, by push_cast; ring, hk⟩
      · have hto : t ≤ o := by
          rcases lt_or_le o t with hlt | hle
          · exact absurd ⟨hl, hlt⟩ h
          · exact hle
        simp only [List.not_mem_nil, false_iff, not_exists, not_and]
        rintro k rfl
        have hkl : (0:ℤ) ≤ (k:ℤ) * l := mul_nonneg (Int.natCast_nonneg k) hl.le
        intro hx
        linarith
  intro o x
  exact H (t - o).toNat o le_rfl x

theorem mem_subsequentOffsets (p : pagingInfo) (x : Int) :
    x ∈ subsequentOffsets p ↔
      0 < p.Total ∧ 0 < p.Limit ∧
        ∃ k : ℕ, 1 ≤ k ∧ x = p.Offset + k * p.Limit ∧ x < p.Total := by
  unfold subsequentOffsets
  split_ifs with h
  · rw [mem_loopOffsets h.2]
    constructor
    · rintro ⟨k, rfl, hk⟩
      exact ⟨h.1, h.2, k + 1, by omega, by push_cast; ring, hk⟩
    · rintro ⟨-, -, k, hk1, rfl, hk⟩
      rcases k with - | k
      · omega
      · exact ⟨k, by push_cast; ring, hk⟩
  · simp only [List.not_mem_nil, false_iff]
    rintro ⟨h1, h2, -⟩
    exact h ⟨h1, h2⟩

theorem wrapIter_eq_of_lt {T L s : Int} (hL : 0 < L) (hs : 0 ≤ s)
    (hTL : T + L ≤ int64Max + 1) :
    ∀ k : ℕ, (∀ j : ℕ, j < k → wrapIter L s j < T) → wrapIter L s k = s + k * L := by
  intro k
  induction k with
  | zero =>
    intro h
    simp [wrapIter]
  | succ k ih =>
    intro h
    have hik : wrapIter L s k = s + k * L := ih fun j hj => h j (Nat.lt_succ_of_lt hj)
    have hkT : s + (k : ℤ) * L < T := by
      rw [← hik]
      exact h k (Nat.lt_succ_self k)
    have hm0 : (0 : ℤ) ≤ s + (k : ℤ) * L :=
      add_nonneg hs (mul_nonneg (Int.natCast_nonneg k) hL.le)
    have hcast : s + ((k + 1 : ℕ) : ℤ) * L = s + (k : ℤ) * L + L := by push_cast; ring
    show wrapStep L (wrapIter L s k) = s + ((k + 1 : ℕ) : ℤ) * L
    rw [hik, hcast]
    unfold wrapStep wrap64
    simp only [int64Max] at hTL
    obtain ⟨m, hm⟩ : ∃ m, s + (k : ℤ) * L = m := ⟨_, rfl⟩
    rw [hm] at hkT hm0 ⊢
    omega

/-- In the no-overflow regime the offsets the wrapped Go loop fetches are
exactly `start + k*limit` while below `total`. -/
theorem wrapVisits_iff (T L O : Int) (_hT : 0 < T) (hL : 0 < L) (hO : 0 ≤ O)
    (hOL : O + L ≤ int64Max) (hTL : T + L ≤ int64Max + 1) (o : Int) :
    wrapVisits T L (wrap64 (O + L)) o ↔ ∃ k : ℕ, o = (O + L) + k * L ∧ o < T := by
  have hs0 : (0 : ℤ) ≤ O + L := add_nonneg hO hL.le
  have hws : wrap64 (O + L) = O + L := by
    unfold wrap64
    simp only [int64Max] at hOL
    omega
  rw [hws]
  constructor
  · rintro ⟨k, rfl, hall⟩
    have hk := wrapIter_eq_of_lt hL hs0 hTL k fun j hj => hall j (le_of_lt hj)
    exact ⟨k, hk, hall k le_rfl⟩
  · rintro ⟨k, rfl, hlt⟩
    have hmono : ∀ j : ℕ, j ≤ k → (O + L) + (j : ℤ) * L < T := by
      intro j hj
      have hjk : (j : ℤ) * L ≤ (k : ℤ) * L :=
        mul_le_mul_of_nonneg_right (by exact_mod_cast hj) hL.le
      linarith
    have hiter : ∀ j : ℕ, j ≤ k → wrapIter L (O + L) j = (O + L) + j * L := by
      intro j
      induction j using Nat.strong_induction_on with
      | _ j ihj =>
        intro hj
        apply wrapIter_eq_of_lt hL hs0 hTL
        intro i hi
        rw [ihj i hi (le_trans hi.le hj)]
        exact hmono i (le_trans hi.le hj)
    refine ⟨k, (hiter k le_rfl).symm, ?_⟩
    intro j hj
    rw [hiter j hj]
    exact hmono j hj

/-- Success of the pre-validation phase decomposes into: first page arrived
with status 200, its shape was accepted, every subsequent page folded, and
the accumulated best candidate is the result. -/
theorem preValidationWithLink_ok {pid : String} {first : FetchResult}
    {f : Int → FetchResult} {bp : ProductPrice}
    (h : preValidationWithLink pid first f = .ok bp) :
    ∃ b0 pg acc0 accF, first = .response 200 b0 ∧
      processBodyWithLink initAccWL b0 = .ok (pg, acc0) ∧
      foldPagesWL f (subsequentOffsets pg) acc0 = .ok accF ∧
      accF.bestPrice = some bp := by
  unfold preValidationWithLink at h
  split at h
  · exact absurd h (by simp)
  · rename_i st body
    split_ifs at h with hst
    split at h
    · exact absurd h (by simp)
    · rename_i pg acc0 hpb
      split at h
      · exact absurd h (by simp)
      · rename_i accF hfp
        split at h
        · exact absurd h (by simp)
        · rename_i bp' hbp
          injection h with h
          subst h
          exact ⟨body, pg, acc0, accF, by rw [not_not.mp hst], hpb, hfp, hbp⟩

/-- A successful full resolution returns exactly the pre-validation
candidate (the validation step never substitutes another value). -/
theorem getWithLink_ok {pid : String} {first : FetchResult} {f : Int → FetchResult}
    {confirm : FetchResult} {bp : ProductPrice}
    (h : GetProductBestPriceWithLink pid first f confirm = .ok bp) :
    preValidationWithLink pid first f = .ok bp := by
  unfold GetProductBestPriceWithLink at h
  split at h
  · exact absurd h (by simp)
  · rename_i bp' hpre
    rw [← validateBest_ok h] at hpre
    exact hpre

/-- Pre-validation on an accepted first page is the paged fold followed by
selection. -/
theorem preValidationWithLink_pages (pid : String) (b0 : Json) (pg : pagingInfo)
    (acc0 : AccWL) (f : Int → FetchResult)
    (h0 : processBodyWithLink initAccWL b0 = .ok (pg, acc0)) :
    preValidationWithLink pid (.response 200 b0) f =
      match foldPagesWL f (subsequentOffsets pg) acc0 with
      | .error e => .error e
      | .ok acc' =>
        match acc'.bestPrice with
        | none => .error (.noActiveItems pid)
        | some bp => .ok bp := by
  show (match processBodyWithLink initAccWL b0 with
        | .error b => (.error (.unknownShape b) : Except MeliError ProductPrice)
        | .ok (paging, acc) =>
          match foldPagesWL f (subsequentOffsets paging) acc with
          | .error e => .error e
          | .ok acc' =>
            match acc'.bestPrice with
            | none => .error (.noActiveItems pid)
            | some bp => .ok bp) = _
  rw [h0]

/-- The paged loop consults the fetch oracle only at the offsets of its
list. -/
theorem foldPagesWL_congr (f g : Int → FetchResult) (offs : List Int) (acc : AccWL)
    (h : ∀ o ∈ offs, f o = g o) :
    foldPagesWL f offs acc = foldPagesWL g offs acc := by
  induction offs generalizing acc with
  | nil => rfl
  | cons o rest ih =>
    unfold foldPagesWL
    rw [h o (by simp)]
    split
    · rfl
    · rename_i st body heq
      by_cases hst : st = 200
      · subst hst
        rcases hpb : processBodyWithLink acc body with b' | ⟨pg, acc'⟩
        · simp [hpb]
        · simp only [ne_eq, reduceIte, hpb]
          exact ih acc' fun o' ho' => h o' (by simp [ho'])
      · simp [hst]

/-! ### Relating `GetProductBestPrice` to `GetProductBestPriceWithLink` -/

/-- The two resolvers decode the paged shape with different element
structs; they agree on a body exactly when the strict decode (with the
extra `CurrencyID` field) coincides with the lenient one — in particular
whenever each result element's `currency_id` field, if present, is a
string or null. -/
def hpAgree (b : Json) : Prop :=
  decodeHighlightPageStrict b = decodeHighlightPage b

/-- Pointwise relation on `Except` results: same error, or related
values. -/
def ExceptRel (r : α → β → Prop) : Except ε α → Except ε β → Prop
  | .error e, .error e' => e = e'
  | .ok a, .ok b => r a b
  | _, _ => False

/-- The simulation relation between the two accumulators: same running
minimum, `found` tracks the presence of a candidate, and the candidate's
price is the running minimum. -/
def AccRel (a : AccBP) (w : AccWL) : Prop :=
  a.min = w.minPrice ∧ a.found = w.bestPrice.isSome ∧
    ∀ c, w.bestPrice = some c → c.Price = w.minPrice

theorem accRel_init : AccRel initAccBP initAccWL :=
  ⟨rfl, rfl, fun _ hc => nomatch hc⟩

theorem accRel_foldItem {a : AccBP} {w : AccWL} (it : Item) (h : AccRel a w) :
    AccRel (foldItemBP a it) (foldItemWL w it) := by
  obtain ⟨h1, h2, h3⟩ := h
  unfold foldItemBP foldItemWL
  rw [h1]
  split_ifs with hp hs hlt
  · exact ⟨h1, h2, h3⟩
  · exact ⟨h1, h2, h3⟩
  · refine ⟨rfl, rfl, ?_⟩
    intro c hc
    injection hc with hc
    exact hc ▸ rfl
  · exact ⟨h1, h2, h3⟩

theorem accRel_foldResult {a : AccBP} {w : AccWL} (r : PagedResult) (h : AccRel a w) :
    AccRel (foldResultBP a r) (foldResultWL w r) := by
  obtain ⟨h1, h2, h3⟩ := h
  unfold foldResultBP foldResultWL
  rw [h1]
  split_ifs with hp hlt
  · exact ⟨h1, h2, h3⟩
  · refine ⟨rfl, rfl, ?_⟩
    intro c hc
    injection hc with hc
    exact hc ▸ rfl
  · exact ⟨h1, h2, h3⟩

theorem accRel_foldlItems (l : List Item) {a : AccBP} {w : AccWL} (h : AccRel a w) :
    AccRel (l.foldl foldItemBP a) (l.foldl foldItemWL w) := by
  induction l generalizing a w with
  | nil => exact h
  | cons it its ih => exact ih (accRel_foldItem it h)

theorem accRel_foldlResults (l : List PagedResult) {a : AccBP} {w : AccWL} (h : AccRel a w) :
    AccRel (l.foldl foldResultBP a) (l.foldl foldResultWL w) := by
  induction l generalizing a w with
  | nil => exact h
  | cons r rs ih => exact ih (accRel_foldResult r h)

theorem processBody_rel {a : AccBP} {w : AccWL} (h : AccRel a w) (b : Json)
    (hb : hpAgree b) :
    ExceptRel (fun pa pw => pa.1 = pw.1 ∧ AccRel pa.2 pw.2)
      (processBodyBestPrice a b) (processBodyWithLink w b) := by
  unfold processBodyBestPrice processBodyWithLink
  rw [hb]
  rcases hW : decodeItemsWrapper b with - | ⟨- | ⟨it, its⟩⟩
  · rcases hL : decodeItemList b with - | ⟨- | ⟨it', its'⟩⟩
    · rcases hH : decodeHighlightPage b with - | ⟨pg, - | ⟨r, rs⟩⟩
      · exact rfl
      · exact rfl
      · exact ⟨rfl, accRel_foldlResults (r :: rs) h⟩
    · rcases hH : decodeHighlightPage b with - | ⟨pg, - | ⟨r, rs⟩⟩
      · exact rfl
      · exact rfl
      · exact ⟨rfl, accRel_foldlResults (r :: rs) h⟩
    · exact ⟨rfl, accRel_foldlItems (it' :: its') h⟩
  · rcases hL : decodeItemList b with - | ⟨- | ⟨it', its'⟩⟩
    · rcases hH : decodeHighlightPage b with - | ⟨pg, - | ⟨r, rs⟩⟩
      · exact rfl
      · exact rfl
      · exact ⟨rfl, accRel_foldlResults (r :: rs) h⟩
    · rcases hH : decodeHighlightPage b with - | ⟨pg, - | ⟨r, rs⟩⟩
      · exact rfl
      · exact rfl
      · exact ⟨rfl, accRel_foldlResults (r :: rs) h⟩
    · exact ⟨rfl, accRel_foldlItems (it' :: its') h⟩
  · exact ⟨rfl, accRel_foldlItems (it :: its) h⟩

theorem foldPages_rel {f : Int → FetchResult} (offs : List Int) {a : AccBP} {w : AccWL}
    (h : AccRel a w) (hb : ∀ o b, f o = .response 200 b → hpAgree b) :
    ExceptRel AccRel (foldPagesBP f offs a) (foldPagesWL f offs w) := by
  induction offs generalizing a w with
  | nil => exact h
  | cons o rest ih =>
    unfold foldPagesBP foldPagesWL
    rcases hfo : f o with - | ⟨st, body⟩
    · exact rfl
    · by_cases hst : st = 200
      · subst hst
        have hrel := processBody_rel h body (hb o body hfo)
        show ExceptRel AccRel
            (match processBodyBestPrice a body with
             | .error b => .error (.unknownShape b)
             | .ok (fst, acc') => foldPagesBP f rest acc')
            (match processBodyWithLink w body with
             | .error b => .error (.unknownShape b)
             | .ok (fst, acc') => foldPagesWL f rest acc')
        rcases hpa : processBodyBestPrice a body with ea | ⟨pga, a'⟩ <;>
          rcases hpw : processBodyWithLink w body with ew | ⟨pgw, w'⟩ <;>
          rw [hpa, hpw] at hrel
        · have he : ea = ew := hrel
          subst he
          exact rfl
        · exact hrel.elim
        · exact hrel.elim
        · exact ih hrel.2
      · simp [hst, ExceptRel]

/-- With agreeing paged decodes on every fetched body, `GetProductBestPrice`
computes exactly the price of `GetProductBestPriceWithLink`'s
pre-validation result. -/
theorem bestPrice_refines (pid : String) (first : FetchResult) (f : Int → FetchResult)
    (hb1 : ∀ b, first = .response 200 b → hpAgree b)
    (hb : ∀ o b, f o = .response 200 b → hpAgree b) :
    GetProductBestPrice pid first f =
      (preValidationWithLink pid first f).map ProductPrice.Price := by
  unfold GetProductBestPrice preValidationWithLink
  rcases first with - | ⟨st, body⟩
  · rfl
  · by_cases hst : st = 200
    · subst hst
      have hrel := processBody_rel accRel_init body (hb1 body rfl)
      show (match processBodyBestPrice initAccBP body with
            | .error b => (.error (.unknownShape b) : Except MeliError ℚ)
            | .ok (paging, acc) =>
              match foldPagesBP f (subsequentOffsets paging) acc with
              | .error e => .error e
              | .ok acc' =>
                if acc'.found then .ok acc'.min else .error (.noActiveItems pid)) =
          Except.map ProductPrice.Price
            (match processBodyWithLink initAccWL body with
             | .error b => .error (.unknownShape b)
             | .ok (paging, acc) =>
               match foldPagesWL f (subsequentOffsets paging) acc with
               | .error e => .error e
               | .ok acc' =>
                 match acc'.bestPrice with
                 | none => .error (.noActiveItems pid)
                 | some bp => .ok bp)
      rcases hpa : processBodyBestPrice initAccBP body with ea | ⟨pga, a0⟩ <;>
        rcases hpw : processBodyWithLink initAccWL body with ew | ⟨pgw, w0⟩ <;>
        rw [hpa, hpw] at hrel
      · have he : ea = ew := hrel
        subst he
        rfl
      · exact hrel.elim
      · exact hrel.elim
      · obtain ⟨hpg, hacc⟩ := hrel
        have hpg' : pga = pgw := hpg
        subst hpg'
        have hrel2 := foldPages_rel (subsequentOffsets pga) hacc hb
        show (match foldPagesBP f (subsequentOffsets pga) a0 with
              | .error e => (.error e : Except MeliError ℚ)
              | .ok acc' =>
                if acc'.found then .ok acc'.min else .error (.noActiveItems pid)) =
            Except.map ProductPrice.Price
              (match foldPagesWL f (subsequentOffsets pga) w0 with
               | .error e => .error e
               | .ok acc' =>
                 match acc'.bestPrice with
                 | none => .error (.noActiveItems pid)
                 | some bp => .ok bp)
        rcases hfa : foldPagesBP f (subsequentOffsets pga) a0 with ea | a' <;>
          rcases hfw : foldPagesWL f (subsequentOffsets pga) w0 with ew | w' <;>
          rw [hfa, hfw] at hrel2
        · have he : ea = ew := hrel2
          subst he
          rfl
        · exact hrel2.elim
        · exact hrel2.elim
        · obtain ⟨g1, g2, g3⟩ := hrel2
          show (if a'.found then (.ok a'.min : Except MeliError ℚ)
                else .error (.noActiveItems pid)) =
              Except.map ProductPrice.Price
                (match w'.bestPrice with
                 | none => .error (.noActiveItems pid)
                 | some bp => .ok bp)
          rcases hbw : w'.bestPrice with - | c
          · have hfd : a'.found = false := by rw [g2, hbw]; rfl
            simp [hfd, Except.map]
          · have hfd : a'.found = true := by rw [g2, hbw]; rfl
            have hpr : a'.min = c.Price := by rw [g1, g3 c hbw]
            simp [hfd, hpr, Except.map]
    · simp [hst, Except.map]

/-! ### Round-trips for the three encodings of a listing set -/

theorem decodeItem_encodeItem (it : Item) : decodeItem (encodeItem it) = some it := rfl

theorem decodePagedResult_encodePagedElem (it : Item) :
    decodePagedResult (encodePagedElem it) = some (resultOfItem it) := rfl

theorem mapM_loop_decodeItem (l : List Item) (accum : List Item) :
    List.mapM.loop decodeItem (l.map encodeItem) accum = some (accum.reverse ++ l) := by
  induction l generalizing accum with
  | nil => simp [List.mapM.loop]
  | cons it its ih =>
    simp [List.mapM.loop, decodeItem_encodeItem, ih]

theorem mapM_decodeItem (l : List Item) : (l.map encodeItem).mapM decodeItem = some l := by
  simpa using mapM_loop_decodeItem l []

theorem mapM_loop_decodePagedResult (l : List Item) (accum : List PagedResult) :
    List.mapM.loop decodePagedResult (l.map encodePagedElem) accum =
      some (accum.reverse ++ l.map resultOfItem) := by
  induction l generalizing accum with
  | nil => simp [List.mapM.loop]
  | cons it its ih =>
    simp [List.mapM.loop, decodePagedResult_encodePagedElem, ih]

theorem mapM_decodePagedResult (l : List Item) :
    (l.map encodePagedElem).mapM decodePagedResult = some (l.map resultOfItem) := by
  simpa using mapM_loop_decodePagedResult l []

theorem decodeItemsWrapper_encodeWrapped (l : List Item) :
    decodeItemsWrapper (encodeWrapped l) = some l := mapM_decodeItem l

theorem decodeItemsWrapper_encodeBare (l : List Item) :
    decodeItemsWrapper (encodeBare l) = none := rfl

theorem decodeItemList_encodeBare (l : List Item) :
    decodeItemList (encodeBare l) = some l := mapM_decodeItem l

theorem decodeItemsWrapper_encodePaged (l : List Item) :
    decodeItemsWrapper (encodePaged l) = some [] := rfl

theorem decodeItemList_encodePaged (l : List Item) :
    decodeItemList (encodePaged l) = none := rfl

theorem decodeHighlightPage_encodePaged (l : List Item) :
    decodeHighlightPage (encodePaged l) = some (pagingInfo.zero, l.map resultOfItem) := by
  show ((l.map encodePagedElem).mapM decodePagedResult).bind
      (fun rs => some (pagingInfo.zero, rs)) = _
  rw [mapM_decodePagedResult]
  rfl

theorem processBodyWithLink_encodeWrapped (acc : AccWL) (it : Item) (its : List Item) :
    processBodyWithLink acc (encodeWrapped (it :: its)) =
      .ok (pagingInfo.zero, (it :: its).foldl foldItemWL acc) := by
  unfold processBodyWithLink
  rw [decodeItemsWrapper_encodeWrapped]

theorem processBodyWithLink_encodeBare (acc : AccWL) (it : Item) (its : List Item) :
    processBodyWithLink acc (encodeBare (it :: its)) =
      .ok (pagingInfo.zero, (it :: its).foldl foldItemWL acc) := by
  unfold processBodyWithLink
  rw [decodeItemsWrapper_encodeBare, decodeItemList_encodeBare]

theorem processBodyWithLink_encodePaged (acc : AccWL) (it : Item) (its : List Item) :
    processBodyWithLink acc (encodePaged (it :: its)) =
      .ok (pagingInfo.zero, ((it :: its).map resultOfItem).foldl foldResultWL acc) := by
  unfold processBodyWithLink
  rw [decodeItemsWrapper_encodePaged, decodeItemList_encodePaged,
    decodeHighlightPage_encodePaged, List.map_cons]

theorem subsequentOffsets_zero : subsequentOffsets pagingInfo.zero = [] := rfl

/-- The relation "same running minimum and same price of the candidate"
between two `WithLink` accumulators. -/
def PriceRel (w1 w2 : AccWL) : Prop :=
  w1.minPrice = w2.minPrice ∧
    w1.bestPrice.map ProductPrice.Price = w2.bestPrice.map ProductPrice.Price

theorem priceRel_fold {w1 w2 : AccWL} (it : Item) (hst : 0 < it.Price → it.Status = "active")
    (h : PriceRel w1 w2) : PriceRel (foldItemWL w1 it) (foldResultWL w2 (resultOfItem it)) := by
  obtain ⟨h1, h2⟩ := h
  show PriceRel
      (if it.Price ≤ 0 then w1
       else if it.Status ≠ "active" then w1
       else if it.Price < w1.minPrice then
         ⟨it.Price, some ⟨it.Price, it.ID, it.Title, it.Permalink⟩⟩
       else w1)
      (if it.Price ≤ 0 then w2
       else if it.Price < w2.minPrice then ⟨it.Price, some ⟨it.Price, it.ID, "", ""⟩⟩
       else w2)
  rw [h1]
  split_ifs with hp hs h3 h4
  · exact ⟨h1, h2⟩
  · exact absurd (hst (lt_of_not_le hp)) hs
  · exact absurd (hst (lt_of_not_le hp)) hs
  · exact ⟨rfl, rfl⟩
  · exact ⟨h1, h2⟩

theorem priceRel_foldl (l : List Item) {w1 w2 : AccWL}
    (hst : ∀ it ∈ l, 0 < it.Price → it.Status = "active") (h : PriceRel w1 w2) :
    PriceRel (l.foldl foldItemWL w1) ((l.map resultOfItem).foldl foldResultWL w2) := by
  induction l generalizing w1 w2 with
  | nil => exact h
  | cons it its ih =>
    simp only [List.map_cons, List.foldl_cons]
    exact ih (fun it' h' => hst it' (by simp [h']))
      (priceRel_fold it (hst it (by simp)) h)

theorem processBodyWithLink_encodeWrapped_nil (acc : AccWL) :
    processBodyWithLink acc (encodeWrapped []) = .error (encodeWrapped []) := rfl

theorem processBodyWithLink_encodeBare_nil (acc : AccWL) :
    processBodyWithLink acc (encodeBare []) = .error (encodeBare []) := rfl

theorem processBodyWithLink_encodePaged_nil (acc : AccWL) :
    processBodyWithLink acc (encodePaged []) = .error (encodePaged []) := rfl

/-! ### Claim theorems -/

/-- C1 counterexample: a paged-shape results element whose JSON `status`
field is the literal "paused" (not "active") becomes the returned
`ProductPrice`: the paged decode carries no status, so the status filter
is never applied to it (the confirmation here returns HTTP 404, which the
validation step accepts without rejection). -/
theorem claim_C1_counterexample :
    GetProductBestPriceWithLink "P"
        (.response 200 (.obj [("results", .arr [.obj [("item_id", .str "A"),
          ("price", .num 5), ("status", .str "paused")]])]))
        (fun _ => .transportErr) (.response 404 .null) = .ok ⟨5, "A", "", ""⟩ ∧
    lookupField [("item_id", Json.str "A"), ("price", Json.num 5),
        ("status", Json.str "paused")] "status" = some (.str "paused") ∧
    "paused" ≠ "active" :=
  ⟨rfl, rfl, by decide⟩

/-- C1 (amended): a listing with price ≤ 0 is never selected in any shape,
and a listing with status ≠ "active" is never selected from the wrapped or
bare shapes; positively, every returned `ProductPrice` has a positive
price and is the image of an entry of some fetched body that passed the
code's eligibility filter (which for paged-shape entries checks only the
price, their decode carrying no status). -/
theorem claim_C1_eligible_source (pid : String) (first : FetchResult)
    (f : Int → FetchResult) (confirm : FetchResult) (bp : ProductPrice)
    (h : GetProductBestPriceWithLink pid first f confirm = .ok bp) :
    0 < bp.Price ∧ ∃ b e, FetchedBody first f b ∧ e ∈ entriesWL b ∧
      entryEligible e ∧ entryCand e = bp := by
  obtain ⟨b0, pg, acc0, accF, hfirst, hpb, hfold, hbest⟩ :=
    preValidationWithLink_ok (getWithLink_ok h)
  have hinit : GoodAcc (fun c => ∃ b e, FetchedBody first f b ∧ e ∈ entriesWL b ∧
      entryEligible e ∧ entryCand e = c) initAccWL := fun c hc => nomatch hc
  have h1 := goodAcc_processBody hpb hinit
    (fun e he helig => ⟨b0, e, Or.inl hfirst, he, helig, rfl⟩)
  have h2 := goodAcc_foldPages (subsequentOffsets pg) acc0 hfold h1
    (fun o b hb e he helig => ⟨b, e, Or.inr ⟨o, hb⟩, he, helig, rfl⟩)
  exact h2 bp hbest

/-- C1 witness: the amended theorem applied to a one-page wrapped response
with one active listing. -/
theorem claim_C1_eligible_source_witness :
    0 < (⟨10, "A", "T", "L"⟩ : ProductPrice).Price ∧
    ∃ b e, FetchedBody (.response 200 (encodeWrapped [⟨"A", "T", 10, "L", "active"⟩]))
        (fun _ => .transportErr) b ∧ e ∈ entriesWL b ∧ entryEligible e ∧
      entryCand e = ⟨10, "A", "T", "L"⟩ :=
  claim_C1_eligible_source "P" (.response 200 (encodeWrapped [⟨"A", "T", 10, "L", "active"⟩]))
    (fun _ => .transportErr) (.response 404 .null) ⟨10, "A", "T", "L"⟩ rfl

/-- C2: `processBody` is exactly the spec's fixed-order shape detection —
the first of wrapped object / bare array / paged object that decodes to a
non-empty listing array is folded; the paged descriptor is passed through
only for the paged shape, the other two (and the unknown-shape failure)
yield the zero descriptor, which generates no further pages; the
unknown-shape error carries the original body. -/
theorem claim_C2_shape_detection (acc : AccWL) (b : Json) :
    (processBodyWithLink acc b =
      match specDetectShape b with
      | some (.wrapped l) => .ok (pagingInfo.zero, l.foldl foldItemWL acc)
      | some (.bare l) => .ok (pagingInfo.zero, l.foldl foldItemWL acc)
      | some (.paged pg rs) => .ok (pg, rs.foldl foldResultWL acc)
      | none => .error b) ∧
    subsequentOffsets pagingInfo.zero = [] := by
  refine ⟨?_, rfl⟩
  rcases hW : decodeItemsWrapper b with - | ⟨- | ⟨it, its⟩⟩
  · rcases hL : decodeItemList b with - | ⟨- | ⟨it', its'⟩⟩
    · rcases hH : decodeHighlightPage b with - | ⟨pg, - | ⟨r, rs⟩⟩
      · simp [processBodyWithLink, specDetectShape, nonEmptyList, hW, hL, hH]
      · simp [processBodyWithLink, specDetectShape, nonEmptyList, hW, hL, hH]
      · simp [processBodyWithLink, specDetectShape, nonEmptyList, hW, hL, hH]
    · rcases hH : decodeHighlightPage b with - | ⟨pg, - | ⟨r, rs⟩⟩
      · simp [processBodyWithLink, specDetectShape, nonEmptyList, hW, hL, hH]
      · simp [processBodyWithLink, specDetectShape, nonEmptyList, hW, hL, hH]
      · simp [processBodyWithLink, specDetectShape, nonEmptyList, hW, hL, hH]
    · simp [processBodyWithLink, specDetectShape, nonEmptyList, hW, hL]
  · rcases hL : decodeItemList b with - | ⟨- | ⟨it', its'⟩⟩
    · rcases hH : decodeHighlightPage b with - | ⟨pg, - | ⟨r, rs⟩⟩
      · simp [processBodyWithLink, specDetectShape, nonEmptyList, hW, hL, hH]
      · simp [processBodyWithLink, specDetectShape, nonEmptyList, hW, hL, hH]
      · simp [processBodyWithLink, specDetectShape, nonEmptyList, hW, hL, hH]
    · rcases hH : decodeHighlightPage b with - | ⟨pg, - | ⟨r, rs⟩⟩
      · simp [processBodyWithLink, specDetectShape, nonEmptyList, hW, hL, hH]
      · simp [processBodyWithLink, specDetectShape, nonEmptyList, hW, hL, hH]
      · simp [processBodyWithLink, specDetectShape, nonEmptyList, hW, hL, hH]
    · simp [processBodyWithLink, specDetectShape, nonEmptyList, hW, hL]
  · simp [processBodyWithLink, specDetectShape, nonEmptyList, hW]

/-- C3 counterexample: the pagination arithmetic is Go int64 and wraps.
For the decodable descriptor total=2^63-1 (MaxInt64), offset=0,
limit=2^62, the wrapped loop's computed offsets cycle through
{2^62, -2^63, -2^62, 0}: the fetched offset -2^63 is not of the form
offset + k*limit for any k, and every iterate stays below total, so the
loop never stops at total — contradicting the claimed offset sequence and
stop condition. -/
theorem claim_C3_counterexample :
    decodePagingInfo (.obj [("total", .num 9223372036854775807), ("offset", .num 0),
        ("limit", .num 4611686018427387904)]) =
      some ⟨9223372036854775807, 0, 4611686018427387904⟩ ∧
    wrapVisits 9223372036854775807 4611686018427387904
      (wrap64 (0 + 4611686018427387904)) (-9223372036854775808) ∧
    (∀ k : ℕ, (0 : Int) + k * 4611686018427387904 ≠ -9223372036854775808) ∧
    (∀ k : ℕ, wrapIter 4611686018427387904 (wrap64 (0 + 4611686018427387904)) k <
      9223372036854775807) := by
  have hcyc : ∀ k : ℕ, wrapIter 4611686018427387904 (wrap64 (0 + 4611686018427387904)) k =
      4611686018427387904 ∨
      wrapIter 4611686018427387904 (wrap64 (0 + 4611686018427387904)) k =
        -9223372036854775808 ∨
      wrapIter 4611686018427387904 (wrap64 (0 + 4611686018427387904)) k =
        -4611686018427387904 ∨
      wrapIter 4611686018427387904 (wrap64 (0 + 4611686018427387904)) k = 0 := by
    intro k
    induction k with
    | zero => exact Or.inl (by decide)
    | succ k ih =>
      rcases ih with h | h | h | h
      · refine Or.inr (Or.inl ?_)
        show wrapStep 4611686018427387904 _ = _
        rw [h]
        decide
      · refine Or.inr (Or.inr (Or.inl ?_))
        show wrapStep 4611686018427387904 _ = _
        rw [h]
        decide
      · refine Or.inr (Or.inr (Or.inr ?_))
        show wrapStep 4611686018427387904 _ = _
        rw [h]
        decide
      · refine Or.inl ?_
        show wrapStep 4611686018427387904 _ = _
        rw [h]
        decide
  refine ⟨rfl, ⟨1, by decide, ?_⟩, ?_, ?_⟩
  · intro j hj
    interval_cases j <;> decide
  · intro k h
    have h0 : (0 : ℤ) ≤ (k : ℤ) * 4611686018427387904 :=
      mul_nonneg (Int.natCast_nonneg k) (by norm_num)
    linarith
  · intro k
    rcases hcyc k with h | h | h | h <;> rw [h] <;> decide

/-- C3 (amended): the ideal offset list visits `Offset + k*Limit` (k ≥ 1)
strictly below `Total`, none when `Total ≤ 0` or `Limit ≤ 0`; for
total=25, offset=0, limit=10 it is exactly [10, 20] (the first page is
fetched at offset 0 with no offset parameter, 3 fetches in all); the loop
consults the fetch oracle only at those offsets; on an accepted first page
the resolution is the fold over those pages followed by selection; and for
every descriptor whose pagination arithmetic stays within int64
(nonnegative offset, Offset+Limit ≤ MaxInt64, Total+Limit ≤ MaxInt64+1)
the wrapped int64 iteration of the Go loop fetches exactly those offsets —
outside that regime the loop's int64 addition wraps (see the
counterexample). -/
theorem claim_C3_pagination :
    (∀ (p : pagingInfo) (x : Int), x ∈ subsequentOffsets p ↔
        0 < p.Total ∧ 0 < p.Limit ∧
          ∃ k : ℕ, 1 ≤ k ∧ x = p.Offset + k * p.Limit ∧ x < p.Total) ∧
    (∀ p : pagingInfo, p.Total ≤ 0 ∨ p.Limit ≤ 0 → subsequentOffsets p = []) ∧
    subsequentOffsets ⟨25, 0, 10⟩ = [10, 20] ∧
    (∀ (f g : Int → FetchResult) (offs : List Int) (acc : AccWL),
      (∀ o ∈ offs, f o = g o) → foldPagesWL f offs acc = foldPagesWL g offs acc) ∧
    (∀ (pid : String) (b0 : Json) (pg : pagingInfo) (acc0 : AccWL) (f : Int → FetchResult),
      processBodyWithLink initAccWL b0 = .ok (pg, acc0) →
      preValidationWithLink pid (.response 200 b0) f =
        match foldPagesWL f (subsequentOffsets pg) acc0 with
        | .error e => .error e
        | .ok acc' =>
          match acc'.bestPrice with
          | none => .error (.noActiveItems pid)
          | some bp => .ok bp) ∧
    (∀ p : pagingInfo, 0 < p.Total → 0 < p.Limit → 0 ≤ p.Offset →
      p.Offset + p.Limit ≤ int64Max → p.Total + p.Limit ≤ int64Max + 1 →
      ∀ o : Int, wrapVisits p.Total p.Limit (wrap64 (p.Offset + p.Limit)) o ↔
        o ∈ subsequentOffsets p) := by
  refine ⟨mem_subsequentOffsets, ?_, ?_, foldPagesWL_congr, preValidationWithLink_pages, ?_⟩
  · intro p hp
    unfold subsequentOffsets
    rw [if_neg (by omega)]
  · simp [subsequentOffsets, loopOffsets]
  · intro p hT hL hO hOL hTL o
    rw [wrapVisits_iff p.Total p.Limit p.Offset hT hL hO hOL hTL o]
    unfold subsequentOffsets
    rw [if_pos ⟨hT, hL⟩, mem_loopOffsets hL]

/-- C3 witness: the spec's total=25/limit=10 scenario — the page-two and
page-three fetches happen at offsets 10 and 20 (the oracle answers a
transport error anywhere else, so a fetch at any other offset would
abort), the page-three listing wins, and the wrapped int64 loop indeed
visits offset 10 for this in-range descriptor. -/
theorem claim_C3_pagination_witness :
    subsequentOffsets ⟨25, 0, 10⟩ = [10, 20] ∧
    subsequentOffsets ⟨0, 0, 0⟩ = [] ∧
    wrapVisits 25 10 (wrap64 (0 + 10)) 10 ∧
    preValidationWithLink "P"
        (.response 200 (.obj [("paging", .obj [("total", .num 25), ("offset", .num 0),
            ("limit", .num 10)]),
          ("results", .arr [.obj [("item_id", .str "A"), ("price", .num 30)]])]))
        (fun o => if o = 10 then
            .response 200 (.obj [("results", .arr [.obj [("item_id", .str "B"),
              ("price", .num 20)]])])
          else if o = 20 then
            .response 200 (.obj [("results", .arr [.obj [("item_id", .str "C"),
              ("price", .num 10)]])])
          else .transportErr) = .ok ⟨10, "C", "", ""⟩ := by
  refine ⟨claim_C3_pagination.2.2.1, claim_C3_pagination.2.1 ⟨0, 0, 0⟩ (by decide), ?_, ?_⟩
  · refine (claim_C3_pagination.2.2.2.2.2 ⟨25, 0, 10⟩ (by decide) (by decide) (by decide)
      (by decide) (by decide) 10).mpr ?_
    rw [claim_C3_pagination.2.2.1]
    simp
  · have h := claim_C3_pagination.2.2.2.2.1 "P"
      (.obj [("paging", .obj [("total", .num 25), ("offset", .num 0), ("limit", .num 10)]),
        ("results", .arr [.obj [("item_id", .str "A"), ("price", .num 30)]])])
      ⟨25, 0, 10⟩ ⟨30, some ⟨30, "A", "", ""⟩⟩
      (fun o => if o = 10 then
          .response 200 (.obj [("results", .arr [.obj [("item_id", .str "B"),
            ("price", .num 20)]])])
        else if o = 20 then
          .response 200 (.obj [("results", .arr [.obj [("item_id", .str "C"),
            ("price", .num 10)]])])
        else .transportErr) rfl
    rw [h, claim_C3_pagination.2.2.1]
    rfl

/-- C4: when a best candidate with a non-empty listing id was selected and
the confirmation fetch succeeds with HTTP 200 and decodes to a listing,
a status other than "active" fails the whole resolution with the
validation error (no other candidate is returned), and status "active"
returns the candidate unchanged. -/
theorem claim_C4_fail_closed (pid : String) (first : FetchResult) (f : Int → FetchResult)
    (cb : Json) (bp : ProductPrice) (it : Item)
    (hpre : preValidationWithLink pid first f = .ok bp) (hid : bp.ItemID ≠ "")
    (hdec : decodeItem cb = some it) :
    (it.Status ≠ "active" →
      GetProductBestPriceWithLink pid first f (.response 200 cb) =
        .err (.validationFailed bp.ItemID it.Status)) ∧
    (it.Status = "active" →
      GetProductBestPriceWithLink pid first f (.response 200 cb) = .ok bp) := by
  constructor
  · intro hs
    simp [GetProductBestPriceWithLink, hpre, validateBest, hid, hdec, hs]
  · intro hs
    simp [GetProductBestPriceWithLink, hpre, validateBest, hid, hdec, hs]

/-- C4 witness: a "paused" confirmation fails the resolution with the
validation error; an "active" confirmation returns the candidate. -/
theorem claim_C4_fail_closed_witness :
    GetProductBestPriceWithLink "P"
        (.response 200 (encodeWrapped [⟨"A", "T", 10, "L", "active"⟩]))
        (fun _ => .transportErr)
        (.response 200 (encodeItem ⟨"A", "T", 10, "L", "paused"⟩)) =
      .err (.validationFailed "A" "paused") ∧
    GetProductBestPriceWithLink "P"
        (.response 200 (encodeWrapped [⟨"A", "T", 10, "L", "active"⟩]))
        (fun _ => .transportErr)
        (.response 200 (encodeItem ⟨"A", "T", 10, "L", "active"⟩)) =
      .ok ⟨10, "A", "T", "L"⟩ := by
  constructor
  · exact (claim_C4_fail_closed "P"
      (.response 200 (encodeWrapped [⟨"A", "T", 10, "L", "active"⟩]))
      (fun _ => .transportErr) (encodeItem ⟨"A", "T", 10, "L", "paused"⟩)
      ⟨10, "A", "T", "L"⟩ ⟨"A", "T", 10, "L", "paused"⟩ rfl (by decide) rfl).1 (by decide)
  · exact (claim_C4_fail_closed "P"
      (.response 200 (encodeWrapped [⟨"A", "T", 10, "L", "active"⟩]))
      (fun _ => .transportErr) (encodeItem ⟨"A", "T", 10, "L", "active"⟩)
      ⟨10, "A", "T", "L"⟩ ⟨"A", "T", 10, "L", "active"⟩ rfl (by decide) rfl).2 rfl

/-- C5: with a selected candidate (non-empty item id), a transport failure
of the confirmation fetch reaches `resp.Body.Close()` on the nil response
returned by `http.Client.Do` (meli_client.go line 710) and the call
panics with a nil-pointer dereference instead of returning the candidate
as-is. -/
theorem claim_C5_confirmation_transport_crash :
    preValidationWithLink "P"
        (.response 200 (encodeWrapped [⟨"A", "T", 10, "L", "active"⟩]))
        (fun _ => .transportErr) = .ok ⟨10, "A", "T", "L"⟩ ∧
    GetProductBestPriceWithLink "P"
        (.response 200 (encodeWrapped [⟨"A", "T", 10, "L", "active"⟩]))
        (fun _ => .transportErr) .transportErr = .crash :=
  ⟨rfl, rfl⟩

/-- C6: a transport error, a non-200 status, or an unknown body shape on
the first page, or a bad page at any offset the paged loop visits, aborts
the whole resolution with an error (already-folded listings are never
reported); and a successful resolution is never silently empty — its
candidate has a positive price. -/
theorem claim_C6_abort_on_page_error (pid : String) (first : FetchResult)
    (f : Int → FetchResult) (confirm : FetchResult) :
    (first = .transportErr →
      GetProductBestPriceWithLink pid first f confirm = .err .transport) ∧
    (∀ st b, first = .response st b → st ≠ 200 →
      GetProductBestPriceWithLink pid first f confirm = .err (.unexpectedStatus st b)) ∧
    (∀ b, first = .response 200 b → entriesWL b = [] →
      GetProductBestPriceWithLink pid first f confirm = .err (.unknownShape b)) ∧
    (∀ b pg acc, first = .response 200 b →
      processBodyWithLink initAccWL b = .ok (pg, acc) →
      (∃ o ∈ subsequentOffsets pg, ¬ pageGood (f o)) →
      ∃ e, GetProductBestPriceWithLink pid first f confirm = .err e) ∧
    (∀ bp, GetProductBestPriceWithLink pid first f confirm = .ok bp → 0 < bp.Price) := by
  refine ⟨?_, ?_, ?_, ?_, ?_⟩
  · intro h
    subst h
    rfl
  · intro st b h hst
    subst h
    simp [GetProductBestPriceWithLink, preValidationWithLink, hst]
  · intro b h hemp
    subst h
    rcases processBodyWithLink_cases initAccWL b with ⟨-, he⟩ | ⟨hne, -, -⟩
    · simp [GetProductBestPriceWithLink, preValidationWithLink, he]
    · exact absurd hemp hne
  · intro b pg acc h hpb hex
    subst h
    obtain ⟨e, he⟩ := foldPagesWL_bad (subsequentOffsets pg) acc hex
    exact ⟨e, by simp [GetProductBestPriceWithLink, preValidationWithLink, hpb, he]⟩
  · intro bp h
    obtain ⟨b0, pg, acc0, accF, hfirst, hpb, hfold, hbest⟩ :=
      preValidationWithLink_ok (getWithLink_ok h)
    have hinit : GoodAcc (fun _ => True) initAccWL := fun c hc => nomatch hc
    have h1 := goodAcc_processBody hpb hinit fun e he helig => trivial
    have h2 := goodAcc_foldPages (subsequentOffsets pg) acc0 hfold h1
      fun o b hb e he helig => trivial
    exact (h2 bp hbest).1

/-- C6 witness: a transport error on the first page yields the transport
error; a first-page body with no accepted shape yields the unknown-shape
error; a success case has a positive price. -/
theorem claim_C6_abort_on_page_error_witness :
    GetProductBestPriceWithLink "P" .transportErr (fun _ => .transportErr) .transportErr =
      .err .transport ∧
    GetProductBestPriceWithLink "P" (.response 200 .null) (fun _ => .transportErr)
        .transportErr = .err (.unknownShape .null) ∧
    GetProductBestPriceWithLink "P" (.response 500 .null) (fun _ => .transportErr)
        .transportErr = .err (.unexpectedStatus 500 .null) ∧
    0 < (⟨10, "A", "T", "L"⟩ : ProductPrice).Price := by
  refine ⟨?_, ?_, ?_, ?_⟩
  · exact (claim_C6_abort_on_page_error "P" .transportErr (fun _ => .transportErr)
      .transportErr).1 rfl
  · exact (claim_C6_abort_on_page_error "P" (.response 200 .null) (fun _ => .transportErr)
      .transportErr).2.2.1 .null rfl rfl
  · exact (claim_C6_abort_on_page_error "P" (.response 500 .null) (fun _ => .transportErr)
      .transportErr).2.1 500 .null rfl (by decide)
  · exact (claim_C6_abort_on_page_error "P"
      (.response 200 (encodeWrapped [⟨"A", "T", 10, "L", "active"⟩]))
      (fun _ => .transportErr) (.response 404 .null)).2.2.2.2 ⟨10, "A", "T", "L"⟩ rfl

/-- C7: the running minimum never increases under any fold step, page or
paged loop; a fold step changes the accumulator only for an eligible entry
with a strictly lower price (which then becomes the minimum and the
candidate); and an entry whose price equals the current minimum never
replaces it — ties go to the first seen, so selection is deterministic. -/
theorem claim_C7_monotone_first_seen :
    (∀ (acc : AccWL) (it : Item), (foldItemWL acc it).minPrice ≤ acc.minPrice) ∧
    (∀ (acc : AccWL) (r : PagedResult), (foldResultWL acc r).minPrice ≤ acc.minPrice) ∧
    (∀ (acc : AccWL) (it : Item), foldItemWL acc it ≠ acc →
      0 < it.Price ∧ it.Status = "active" ∧ it.Price < acc.minPrice ∧
        (foldItemWL acc it).minPrice = it.Price ∧
        (foldItemWL acc it).bestPrice = some ⟨it.Price, it.ID, it.Title, it.Permalink⟩) ∧
    (∀ (acc : AccWL) (r : PagedResult), foldResultWL acc r ≠ acc →
      0 < r.Price ∧ r.Price < acc.minPrice ∧ (foldResultWL acc r).minPrice = r.Price) ∧
    (∀ (acc : AccWL) (it : Item), it.Price = acc.minPrice → foldItemWL acc it = acc) ∧
    (∀ (acc : AccWL) (r : PagedResult), r.Price = acc.minPrice → foldResultWL acc r = acc) ∧
    (∀ (acc acc' : AccWL) (b : Json) (pg : pagingInfo),
      processBodyWithLink acc b = .ok (pg, acc') → acc'.minPrice ≤ acc.minPrice) ∧
    (∀ (f : Int → FetchResult) (offs : List Int) (acc acc' : AccWL),
      foldPagesWL f offs acc = .ok acc' → acc'.minPrice ≤ acc.minPrice) := by
  refine ⟨foldItemWL_minPrice_le, foldResultWL_minPrice_le, ?_, ?_, ?_, ?_,
    fun acc acc' b pg h => processBodyWithLink_minPrice_le h,
    fun f offs acc acc' h => foldPagesWL_minPrice_le offs acc h⟩
  · intro acc it h
    unfold foldItemWL at h ⊢
    split_ifs at h ⊢ with h1 h2 h3
    · exact absurd rfl h
    · exact absurd rfl h
    · exact ⟨lt_of_not_le h1, not_not.mp h2, h3, rfl, rfl⟩
    · exact absurd rfl h
  · intro acc r h
    unfold foldResultWL at h ⊢
    split_ifs at h ⊢ with h1 h2
    · exact absurd rfl h
    · exact ⟨lt_of_not_le h1, h2, rfl⟩
    · exact absurd rfl h
  · intro acc it h
    unfold foldItemWL
    split_ifs with h1 h2 h3
    · rfl
    · rfl
    · rw [h] at h3
      exact absurd h3 (lt_irrefl _)
    · rfl
  · intro acc r h
    unfold foldResultWL
    split_ifs with h1 h2
    · rfl
    · rw [h] at h2
      exact absurd h2 (lt_irrefl _)
    · rfl

/-- C7 witness: the conjuncts applied at concrete accumulators — a fold
step never raises the minimum, an equal-priced listing leaves the
accumulator (and so the first-seen winner) unchanged, and a concrete
accepted page only lowers the minimum. -/
theorem claim_C7_monotone_first_seen_witness :
    (foldItemWL initAccWL ⟨"A", "T", 5, "L", "active"⟩).minPrice ≤ initAccWL.minPrice ∧
    foldItemWL ⟨5, some ⟨5, "B", "U", "M"⟩⟩ ⟨"A", "T", 5, "L", "active"⟩ =
      ⟨5, some ⟨5, "B", "U", "M"⟩⟩ ∧
    (⟨10, some ⟨10, "A", "T", "L"⟩⟩ : AccWL).minPrice ≤ initAccWL.minPrice := by
  refine ⟨?_, ?_, ?_⟩
  · exact claim_C7_monotone_first_seen.1 initAccWL ⟨"A", "T", 5, "L", "active"⟩
  · exact claim_C7_monotone_first_seen.2.2.2.2.1 ⟨5, some ⟨5, "B", "U", "M"⟩⟩
      ⟨"A", "T", 5, "L", "active"⟩ rfl
  · exact claim_C7_monotone_first_seen.2.2.2.2.2.2.1 initAccWL
      ⟨10, some ⟨10, "A", "T", "L"⟩⟩ (encodeWrapped [⟨"A", "T", 10, "L", "active"⟩])
      pagingInfo.zero rfl

/-- C8 counterexample: the same two listings (one "paused" at price 5, one
"active" at price 10) resolve to price 10 when encoded in the wrapped
shape but to price 5 when encoded in the paged shape, because the paged
decode drops the status and the paged fold filters only on price. -/
theorem claim_C8_counterexample :
    resolvedPrice (preValidationWithLink "P"
        (.response 200 (encodeWrapped [⟨"A", "T", 5, "L", "paused"⟩,
          ⟨"B", "U", 10, "M", "active"⟩])) (fun _ => .transportErr)) = some 10 ∧
    resolvedPrice (preValidationWithLink "P"
        (.response 200 (encodePaged [⟨"A", "T", 5, "L", "paused"⟩,
          ⟨"B", "U", 10, "M", "active"⟩])) (fun _ => .transportErr)) = some 5 ∧
    some (10 : ℚ) ≠ some (5 : ℚ) :=
  ⟨rfl, rfl, by decide⟩

/-- C8 (amended): the wrapped and bare encodings of a listing set resolve
to the same price unconditionally; the paged encoding agrees whenever
every listing with a positive price has status "active" (the paged shape
cannot carry a status, so status-ineligible listings are only excluded by
the other two shapes). -/
theorem claim_C8_shape_agreement (l : List Item) (pid : String) (f : Int → FetchResult) :
    (resolvedPrice (preValidationWithLink pid (.response 200 (encodeWrapped l)) f) =
      resolvedPrice (preValidationWithLink pid (.response 200 (encodeBare l)) f)) ∧
    ((∀ it ∈ l, 0 < it.Price → it.Status = "active") →
      resolvedPrice (preValidationWithLink pid (.response 200 (encodeWrapped l)) f) =
        resolvedPrice (preValidationWithLink pid (.response 200 (encodePaged l)) f)) := by
  constructor
  · rcases l with - | ⟨it, its⟩
    · rfl
    · rw [preValidationWithLink_pages pid _ _ _ f (processBodyWithLink_encodeWrapped initAccWL it its),
        preValidationWithLink_pages pid _ _ _ f (processBodyWithLink_encodeBare initAccWL it its)]
  · intro h
    rcases l with - | ⟨it, its⟩
    · rfl
    · rw [preValidationWithLink_pages pid _ _ _ f (processBodyWithLink_encodeWrapped initAccWL it its),
        preValidationWithLink_pages pid _ _ _ f (processBodyWithLink_encodePaged initAccWL it its),
        subsequentOffsets_zero]
      have hpr := priceRel_foldl (it :: its) h (⟨rfl, rfl⟩ : PriceRel initAccWL initAccWL)
      obtain ⟨-, h2⟩ := hpr
      show resolvedPrice (match ((it :: its).foldl foldItemWL initAccWL).bestPrice with
            | none => .error (.noActiveItems pid)
            | some bp => .ok bp) =
          resolvedPrice (match (((it :: its).map resultOfItem).foldl foldResultWL initAccWL).bestPrice with
            | none => .error (.noActiveItems pid)
            | some bp => .ok bp)
      rcases hw : ((it :: its).foldl foldItemWL initAccWL).bestPrice with - | cw <;>
        rcases hr : (((it :: its).map resultOfItem).foldl foldResultWL initAccWL).bestPrice with - | cr <;>
        rw [hw, hr] at h2 <;>
        simp_all [resolvedPrice]

/-- C8 witness: the amended agreement at a concrete all-active listing
set. -/
theorem claim_C8_shape_agreement_witness :
    resolvedPrice (preValidationWithLink "P"
        (.response 200 (encodeWrapped [⟨"A", "T", 10, "L", "active"⟩,
          ⟨"B", "U", 5, "M", "active"⟩])) (fun _ => .transportErr)) =
      resolvedPrice (preValidationWithLink "P"
        (.response 200 (encodeBare [⟨"A", "T", 10, "L", "active"⟩,
          ⟨"B", "U", 5, "M", "active"⟩])) (fun _ => .transportErr)) ∧
    resolvedPrice (preValidationWithLink "P"
        (.response 200 (encodeWrapped [⟨"A", "T", 10, "L", "active"⟩,
          ⟨"B", "U", 5, "M", "active"⟩])) (fun _ => .transportErr)) =
      resolvedPrice (preValidationWithLink "P"
        (.response 200 (encodePaged [⟨"A", "T", 10, "L", "active"⟩,
          ⟨"B", "U", 5, "M", "active"⟩])) (fun _ => .transportErr)) :=
  ⟨(claim_C8_shape_agreement [⟨"A", "T", 10, "L", "active"⟩, ⟨"B", "U", 5, "M", "active"⟩]
      "P" (fun _ => .transportErr)).1,
    (claim_C8_shape_agreement [⟨"A", "T", 10, "L", "active"⟩, ⟨"B", "U", 5, "M", "active"⟩]
      "P" (fun _ => .transportErr)).2 (by decide)⟩

/-- C9 counterexample: on a paged body whose result element carries a
numeric `currency_id`, `GetProductBestPrice` rejects the shape (its
element struct declares `CurrencyID string`) and fails with the
unknown-shape error, while `GetProductBestPriceWithLink` accepts the page
and accumulates the candidate at price 5 — the two shape detections are
not the same and the returned price does not match the pre-validation
candidate. -/
theorem claim_C9_counterexample :
    preValidationWithLink "P"
        (.response 200 (.obj [("results", .arr [.obj [("item_id", .str "A"),
          ("price", .num 5), ("currency_id", .num 7)]])]))
        (fun _ => .transportErr) = .ok ⟨5, "A", "", ""⟩ ∧
    GetProductBestPrice "P"
        (.response 200 (.obj [("results", .arr [.obj [("item_id", .str "A"),
          ("price", .num 5), ("currency_id", .num 7)]])]))
        (fun _ => .transportErr) =
      .error (.unknownShape (.obj [("results", .arr [.obj [("item_id", .str "A"),
        ("price", .num 5), ("currency_id", .num 7)]])])) ∧
    GetProductBestPrice "P"
        (.response 200 (.obj [("results", .arr [.obj [("item_id", .str "A"),
          ("price", .num 5), ("currency_id", .num 7)]])]))
        (fun _ => .transportErr) ≠
      (preValidationWithLink "P"
        (.response 200 (.obj [("results", .arr [.obj [("item_id", .str "A"),
          ("price", .num 5), ("currency_id", .num 7)]])]))
        (fun _ => .transportErr)).map ProductPrice.Price :=
  ⟨rfl, rfl, fun h => Except.noConfusion h⟩

/-- C9 (amended): whenever the strict and lenient paged decodes agree on
every body fetched with status 200 (in particular when each result
element's `currency_id`, if present, is a string or null),
`GetProductBestPrice` returns exactly the price of
`GetProductBestPriceWithLink`'s pre-validation candidate, and fails with
the same error — including the no-active-items error exactly when the
candidate is absent. -/
theorem claim_C9_refinement (pid : String) (first : FetchResult) (f : Int → FetchResult)
    (hb1 : ∀ b, first = .response 200 b → hpAgree b)
    (hb : ∀ o b, f o = .response 200 b → hpAgree b) :
    GetProductBestPrice pid first f =
      (preValidationWithLink pid first f).map ProductPrice.Price :=
  bestPrice_refines pid first f hb1 hb

/-- C9 witness: the amended refinement at a concrete wrapped page (whose
paged decodes trivially agree). -/
theorem claim_C9_refinement_witness :
    GetProductBestPrice "P" (.response 200 (encodeWrapped [⟨"A", "T", 10, "L", "active"⟩]))
        (fun _ => .transportErr) =
      (preValidationWithLink "P"
        (.response 200 (encodeWrapped [⟨"A", "T", 10, "L", "active"⟩]))
        (fun _ => .transportErr)).map ProductPrice.Price :=
  claim_C9_refinement "P" (.response 200 (encodeWrapped [⟨"A", "T", 10, "L", "active"⟩]))
    (fun _ => .transportErr) (fun b hb => by cases hb; rfl) (fun o b h => nomatch h)

/-- C10: the validation step rejects only on a decoded non-active status:
a 200 confirmation whose body does not decode as a listing is silently
accepted, a non-200 confirmation is accepted, a candidate with an empty
listing id skips confirmation entirely and is accepted, and every
validation failure exhibits a 200 response decoding to a non-active
status for a candidate with a non-empty id. -/
theorem claim_C10_validation_only_on_decoded_status (pid : String) (first : FetchResult)
    (f : Int → FetchResult) (confirm : FetchResult) (bp : ProductPrice)
    (hpre : preValidationWithLink pid first f = .ok bp) :
    (∀ cb, confirm = .response 200 cb → decodeItem cb = none →
      GetProductBestPriceWithLink pid first f confirm = .ok bp) ∧
    (∀ st cb, confirm = .response st cb → st ≠ 200 →
      GetProductBestPriceWithLink pid first f confirm = .ok bp) ∧
    (bp.ItemID = "" → GetProductBestPriceWithLink pid first f confirm = .ok bp) ∧
    (∀ i s, GetProductBestPriceWithLink pid first f confirm = .err (.validationFailed i s) →
      bp.ItemID ≠ "" ∧ ∃ cb it, confirm = .response 200 cb ∧ decodeItem cb = some it ∧
        it.Status = s ∧ s ≠ "active") := by
  refine ⟨?_, ?_, ?_, ?_⟩
  · intro cb h hdec
    subst h
    by_cases hid : bp.ItemID = "" <;>
      simp [GetProductBestPriceWithLink, hpre, validateBest, hid, hdec]
  · intro st cb h hst
    subst h
    by_cases hid : bp.ItemID = "" <;>
      simp [GetProductBestPriceWithLink, hpre, validateBest, hid, hst]
  · intro hid
    simp [GetProductBestPriceWithLink, hpre, validateBest, hid]
  · intro i s h
    unfold GetProductBestPriceWithLink at h
    rw [hpre] at h
    simp only [] at h
    unfold validateBest at h
    split_ifs at h with hid
    refine ⟨hid, ?_⟩
    split at h
    · exact absurd h (by simp)
    · rename_i st cb
      split_ifs at h with h200
      subst h200
      split at h
      · rename_i it hdec
        split_ifs at h with hs
        injection h with h
        injection h with hii hss
        exact ⟨cb, it, rfl, hdec, hss, hss ▸ hs⟩
      · exact absurd h (by simp)

/-- C10 witness: a confirmation body that is not a listing object, and a
404 confirmation, are both accepted and the candidate is returned. -/
theorem claim_C10_validation_only_on_decoded_status_witness :
    GetProductBestPriceWithLink "P"
        (.response 200 (encodeWrapped [⟨"A", "T", 10, "L", "active"⟩]))
        (fun _ => .transportErr) (.response 200 (.bool true)) = .ok ⟨10, "A", "T", "L"⟩ ∧
    GetProductBestPriceWithLink "P"
        (.response 200 (encodeWrapped [⟨"A", "T", 10, "L", "active"⟩]))
        (fun _ => .transportErr) (.response 404 .null) = .ok ⟨10, "A", "T", "L"⟩ := by
  constructor
  · exact (claim_C10_validation_only_on_decoded_status "P"
      (.response 200 (encodeWrapped [⟨"A", "T", 10, "L", "active"⟩]))
      (fun _ => .transportErr) (.response 200 (.bool true)) ⟨10, "A", "T", "L"⟩ rfl).1
      (.bool true) rfl rfl
  · exact (claim_C10_validation_only_on_decoded_status "P"
      (.response 200 (encodeWrapped [⟨"A", "T", 10, "L", "active"⟩]))
      (fun _ => .transportErr) (.response 404 .null) ⟨10, "A", "T", "L"⟩ rfl).2.1
      404 .null rfl (by decide)

end Meli

